import Mathlib

/-!
Shallow embedding of the static site generator in `src/index.ts`.

JavaScript strings are modelled as Lean `String` (a list of characters);
the JS string primitives the program uses (`split`, `trim`, `includes`,
`indexOf`, `slice`) are reimplemented below with JS semantics.  Node's
`path.parse` and `path.join` (posix) are reimplemented from the Node
algorithm.  A thrown JS exception is modelled as `none` / `Except.error`.
-/

namespace StaticSite

/-- JS `String.prototype.split` with a single-character separator:
splits into the (possibly empty) chunks between occurrences. -/
def splitOnChar (c : Char) : List Char → List (List Char)
  | [] => [[]]
  | x :: xs =>
    let r := splitOnChar c xs
    if x = c then [] :: r
    else (x :: r.headD []) :: r.tail

/-- String-level wrapper for `splitOnChar`. -/
def jsSplit (c : Char) (s : String) : List String :=
  (splitOnChar c s.data).map (fun l => ⟨l⟩)

/-- JS `String.prototype.trim`: strip whitespace from both ends. -/
def jsTrim (s : String) : String :=
  ⟨((s.data.dropWhile Char.isWhitespace).reverse.dropWhile Char.isWhitespace).reverse⟩

/-- First index of `pat` as a contiguous sublist of `s`, if any
(the search of JS `String.prototype.indexOf`). -/
def findSubstrIdx (pat : List Char) : List Char → Option Nat
  | [] => if pat.isPrefixOf ([] : List Char) then some 0 else none
  | x :: t =>
    if pat.isPrefixOf (x :: t) then some 0
    else (findSubstrIdx pat t).map (· + 1)

/-- JS `String.prototype.indexOf`: index of the first occurrence, `-1` if absent. -/
def jsIndexOf (s pat : String) : Int :=
  match findSubstrIdx pat.data s.data with
  | some n => (n : Int)
  | none => -1

/-- Clamp a JS slice index (negative counts from the end) into `[0, len]`. -/
def jsSliceClamp (len : Nat) (i : Int) : Nat :=
  if i < 0 then (max ((len : Int) + i) 0).toNat else min i.toNat len

/-- JS `s.slice(start, stop)` (two-argument form). -/
def jsSlice2 (s : String) (start stop : Int) : String :=
  ⟨(s.data.take (jsSliceClamp s.data.length stop)).drop (jsSliceClamp s.data.length start)⟩

/-- JS `s.slice(start)` (one-argument form). -/
def jsSliceFrom (s : String) (start : Int) : String :=
  ⟨s.data.drop (jsSliceClamp s.data.length start)⟩

/-- JS `String.prototype.includes`: substring containment. -/
def jsIncludes (s pat : String) : Bool :=
  (findSubstrIdx pat.data s.data).isSome

/-! ### Metadata parser (`parseMetadata`, src/index.ts lines 145-152) -/

/-- The `Metadata` object: insertion-ordered key/value pairs with unique keys. -/
abbrev Metadata : Type := List (String × String)

/-- JS object spread `{...data, [key]: value}`: replace the value in place if
the key exists, otherwise append the new entry. -/
def mdInsert (data : Metadata) (key value : String) : Metadata :=
  if data.any (fun p => p.1 = key)
  then data.map (fun p => if p.1 = key then (key, value) else p)
  else data ++ [(key, value)]

/-- JS property read `data[key]`. -/
def mdLookup (data : Metadata) (key : String) : Option String :=
  (data.find? (fun p => p.1 = key)).map (fun p => p.2)

/-- One step of the `reduce` in `parseMetadata`: `line.split(':')` is
destructured as `[key, value]`, so `value` is the chunk between the first
and the second colon; on a line with no colon `value` is `undefined` and
`value.trim()` throws a TypeError, modelled as `none`. -/
def parseLine (line : String) : Option (String × String) :=
  match jsSplit ':' line with
  | [] => none
  | [_] => none
  | key :: value :: _ => some (key, jsTrim value)

/-- The reducer body of `parseMetadata`. -/
def parseMetadataStep (data : Metadata) (line : String) : Option Metadata :=
  (parseLine line).map (fun kv => mdInsert data kv.1 kv.2)

/-- Function `parseMetadata` (src/index.ts lines 145-152): split the header
on newlines and fold the lines into an object; a thrown TypeError is `none`. -/
def parseMetadata (str : String) : Option Metadata :=
  (jsSplit '\n' str).foldlM parseMetadataStep ([] : List (String × String))

/-! ### Node `path` (posix) — `parse`, `normalize`, `join` -/

/-- Result record of Node `path.parse`. -/
structure ParsedPath where
  root : String
  dir : String
  base : String
  ext : String
  name : String
deriving DecidableEq

/-- Split a base name into `(name, ext)` following Node `path.parse`: there is
no extension when the base has no dot, when its only dot is its first
character, or when the base is exactly `".."`; otherwise the extension starts
at the last dot. -/
def extSplit (base : List Char) : List Char × List Char :=
  let afterDot := base.reverse.takeWhile (fun a => a ≠ '.')
  if afterDot.length = base.length then (base, [])
  else
    let dotIdx := base.length - afterDot.length - 1
    if dotIdx = 0 then (base, [])
    else if base = ['.', '.'] then (base, [])
    else (base.take dotIdx, base.drop dotIdx)

/-- Node `path.parse` after the root has been split off: `body` is the path
without its leading slash (if absolute) and `root` is `"/"` or `""`.
Trailing slashes are ignored; the base name is the segment after the last
remaining slash; `dir` is everything before that slash (with the root). -/
def parseBody (root : String) (body : List Char) : ParsedPath :=
  let revTrim := body.reverse.dropWhile (fun a => a = '/')
  if revTrim = [] then ⟨root, root, "", "", ""⟩
  else
    let baseR := revTrim.takeWhile (fun a => a ≠ '/')
    let restR := revTrim.dropWhile (fun a => a ≠ '/')
    let base := baseR.reverse
    let ne := extSplit base
    if restR = [] then ⟨root, root, ⟨base⟩, ⟨ne.2⟩, ⟨ne.1⟩⟩
    else ⟨root, root ++ ⟨restR.tail.reverse⟩, ⟨base⟩, ⟨ne.2⟩, ⟨ne.1⟩⟩

/-- Node `path.parse` on the character list of the path. -/
def parsePathData : List Char → ParsedPath
  | [] => ⟨"", "", "", "", ""⟩
  | c :: rest => if c = '/' then parseBody "/" rest else parseBody "" (c :: rest)

/-- Node posix `path.parse`. -/
def parsePath (p : String) : ParsedPath :=
  parsePathData p.data

/-- One segment step of Node `normalizeString`: skip empty and `"."`
segments; `".."` pops the previous segment unless the (reversed) result
already ends in `".."`, in which case `".."` accumulates exactly when the
path is relative (`allowAboveRoot`). -/
def normStep (allowAboveRoot : Bool) (acc : List String) (s : String) : List String :=
  if s = "" ∨ s = "." then acc
  else if s = ".." then
    match acc with
    | [] => if allowAboveRoot then [".."] else []
    | x :: rest =>
      if x = ".." then (if allowAboveRoot then ".." :: x :: rest else x :: rest)
      else rest
  else s :: acc

/-- Node `normalizeString`: resolve `.` and `..` segments and collapse
duplicate slashes. -/
def normalizeSegs (allowAboveRoot : Bool) (segs : List String) : List String :=
  (segs.foldl (normStep allowAboveRoot) []).reverse

/-- Node posix `path.normalize`. -/
def normalize (p : String) : String :=
  if p = "" then "." else
  let isAbs := p.data.head? = some '/'
  let trailingSep := p.data.getLast? = some '/'
  let out := String.intercalate "/" (normalizeSegs (!isAbs) (jsSplit '/' p))
  if out = "" then
    if isAbs then "/" else if trailingSep then "./" else "."
  else
    (if isAbs then "/" ++ out else out) ++ (if trailingSep then "/" else "")

/-- Node posix `path.join`: concatenate the non-empty arguments with `/`
and normalize; with no non-empty argument the result is `"."`. -/
def joinPath (parts : List String) : String :=
  let nonempty := parts.filter (fun s => s ≠ "")
  if nonempty = [] then "." else normalize (String.intercalate "/" nonempty)

/-! ### Path resolver (`formatFilename`, src/index.ts lines 116-123) and the
href computation of `postsData` (lines 102-111) -/

/-- Function `formatFilename`: a path whose base name is exactly `index.html` is
returned unchanged; otherwise the result is
`path.join(dir, name, 'index.html')`. -/
def formatFilename (filename : String) : String :=
  let parsed := parsePath filename
  if parsed.base = "index.html" then filename
  else joinPath [parsed.dir, parsed.name, "index.html"]

/-- The href computed in `postsData`:
`href = path.parse(formatFilename(fullpath)).dir`. -/
def hrefOf (fullpath : String) : String :=
  (parsePath (formatFilename fullpath)).dir

/-! ### Document loader filter (`postsData`, src/index.ts lines 94-114) -/

/-- The loop of `postsData` restricted to its filter/skip behaviour: an entry
with `filename.includes('.org')` is collected, any other entry is skipped
with a `Skipping <filename>` log line.  Returns (collected entries, logs). -/
def postsDataStep (acc : List String × List String) (filename : String) :
    List String × List String :=
  if jsIncludes filename ".org" then (acc.1 ++ [filename], acc.2)
  else (acc.1, acc.2 ++ ["Skipping " ++ filename])

/-- The fold of `postsDataStep` over the directory listing, starting empty. -/
def postsDataScan (entries : List String) : List String × List String :=
  entries.foldl postsDataStep ([], [])

/-! ### Document compilation (`compileOrgFile`, src/index.ts lines 130-142) -/

/-- Function `compileOrgFile` on the raw file content: find the separator
`"\n---\n"` via `indexOf` (`-1` when absent), take
`rawContent.slice(0, idx)` as the metadata header and
`rawContent.slice(idx + 5)` as the body handed to the external `pandoc`
process.  A TypeError thrown by `parseMetadata` is modelled as `none`;
otherwise the result is the parsed metadata together with the body text
passed to the converter. -/
def compileOrgFile (rawContent : String) : Option (Metadata × String) :=
  let idx := jsIndexOf rawContent "\n---\n"
  let rawMetadata := jsSlice2 rawContent 0 idx
  match parseMetadata rawMetadata with
  | none => none
  | some metadata => some (metadata, jsSliceFrom rawContent (idx + 5))

/-! ### Orchestrator (`genPosts` / `genIndex` / `write`, src/index.ts
lines 20-24 and 64-84) -/

/-- The `PostData` record of src/index.ts lines 86-92. -/
structure PostData where
  html : String
  filename : String
  fullpath : String
  href : String
  metadata : Metadata
deriving DecidableEq

/-- The output path used by `write`: `formatFilename(path.join('build', filename))`. -/
def writtenPath (filename : String) : String :=
  formatFilename (joinPath ["build", filename])

/-- The ordered list of page writes the top level performs
(`genPosts(DATA)` then `genIndex(DATA)`, src/index.ts lines 23-24):
one write per post (`write(post.fullpath, …)`) followed by the index write
(`write('index.html', …)`). -/
def buildWrites (posts : List PostData) : List String :=
  posts.map (fun p => writtenPath p.fullpath) ++ [writtenPath "index.html"]

/-! ### HTML optimizer (`optimizeHtml`, src/index.ts lines 172-196) -/

/-- Model of a terser `minify` result: `code`, and optional `error` and
`warnings` fields. -/
structure MinifyJsResult where
  code : Option String
  error : Option String
  warnings : Option String
deriving DecidableEq

/-- The `minifyJS` callback of `optimizeHtml`, with the embedded JS minifier
as an oracle: warnings (when present) are logged; on an error the offending
script text is logged and the error is thrown (`Except.error`, which
propagates uncaught and aborts the build); otherwise the minified code is
returned.  Result: (console log lines, outcome). -/
def minifyJsCallback (minifyJs : String → MinifyJsResult) (text : String) :
    List String × Except String String :=
  let res := minifyJs text
  let logs := match res.warnings with
    | some w => [w]
    | none => []
  match res.error with
  | some e => (logs ++ [text], Except.error e)
  | none => (logs, Except.ok (res.code.getD ""))

/-- Function `optimizeHtml` with the external HTML minifier and syntax highlighter as
oracles: the input HTML is first highlighted (`highlightHtml`), and the
highlighted text is what is minified. -/
def optimizeHtml (minifyHtml highlightHtml : String → String) (html : String) : String :=
  minifyHtml (highlightHtml html)

/-! ### Page title (`defaults`, src/index.ts lines 26-31) -/

/-- The `title` field of `defaults(post?)`: JS truthiness of
`post?.metadata.title` — an absent post, an absent `title` key, and an empty
string all yield the bare site name; a non-empty title gets the site
suffix. -/
def pageTitle (post : Option PostData) : String :=
  match post with
  | none => "Frank Filho"
  | some p =>
    match mdLookup p.metadata "title" with
    | none => "Frank Filho"
    | some t => if t = "" then "Frank Filho" else t ++ " - Frank Filho"

/-! ## Helper lemmas -/

lemma data_append (a b : String) : (a ++ b).data = a.data ++ b.data := by
  cases a
  cases b
  rfl

lemma str_ext {a b : String} (h : a.data = b.data) : a = b := by
  cases a
  cases b
  cases h
  rfl

lemma takeWhile_app_stop (p : Char → Bool) (l1 : List Char) (x : Char) (l2 : List Char)
    (hl1 : ∀ a ∈ l1, p a = true) (hx : p x = false) :
    (l1 ++ x :: l2).takeWhile p = l1 := by
  induction l1 with
  | nil => simp [List.takeWhile_cons, hx]
  | cons y ys ih =>
    rw [List.cons_append, List.takeWhile_cons, hl1 y (List.mem_cons_self y ys)]
    rw [ih (fun a ha => hl1 a (List.mem_cons_of_mem y ha))]
    simp

lemma dropWhile_app_stop (p : Char → Bool) (l1 : List Char) (x : Char) (l2 : List Char)
    (hl1 : ∀ a ∈ l1, p a = true) (hx : p x = false) :
    (l1 ++ x :: l2).dropWhile p = x :: l2 := by
  induction l1 with
  | nil => simp [List.dropWhile_cons, hx]
  | cons y ys ih =>
    rw [List.cons_append, List.dropWhile_cons, hl1 y (List.mem_cons_self y ys)]
    exact ih (fun a ha => hl1 a (List.mem_cons_of_mem y ha))

lemma parseBody_dir (root : String) (pre tl : List Char)
    (htl : tl ≠ []) (htl2 : '/' ∉ tl) :
    (parseBody root (pre ++ '/' :: tl)).dir = root ++ ⟨pre⟩ := by
  obtain ⟨d, ds, hd⟩ : ∃ d ds, tl.reverse = d :: ds := by
    cases h : tl.reverse with
    | nil => exact absurd (List.reverse_eq_nil_iff.mp h) htl
    | cons d ds => exact ⟨d, ds, rfl⟩
  have hAll : ∀ a ∈ tl.reverse, a ≠ '/' := by
    intro a ha he
    exact htl2 (he ▸ List.mem_reverse.mp ha)
  have hdne : d ≠ '/' := hAll d (hd ▸ List.mem_cons_self d ds)
  have hrev : (pre ++ '/' :: tl).reverse = (d :: ds) ++ '/' :: pre.reverse := by
    rw [List.reverse_append, List.reverse_cons, hd]
    simp
  have hdrop : ((d :: ds) ++ '/' :: pre.reverse).dropWhile (fun a => a = '/')
      = (d :: ds) ++ '/' :: pre.reverse := by
    rw [List.cons_append, List.dropWhile_cons]
    simp [hdne]
  have htw : ((d :: ds) ++ '/' :: pre.reverse).takeWhile (fun a => a ≠ '/')
      = d :: ds := by
    refine takeWhile_app_stop _ _ _ _ ?_ (by simp)
    intro a ha
    simpa using hAll a (hd ▸ ha)
  have hdw : ((d :: ds) ++ '/' :: pre.reverse).dropWhile (fun a => a ≠ '/')
      = '/' :: pre.reverse := by
    refine dropWhile_app_stop _ _ _ _ ?_ (by simp)
    intro a ha
    simpa using hAll a (hd ▸ ha)
  simp only [parseBody, hrev, hdrop, htw, hdw]
  simp

lemma parsePath_dir_slash_index (s : String) (hs : s.data ≠ []) :
    (parsePath (s ++ "/index.html")).dir = s := by
  have hdata : (s ++ "/index.html").data = s.data ++ '/' :: "index.html".data := by
    rw [data_append]
  obtain ⟨c, cs, hcs⟩ : ∃ c cs, s.data = c :: cs := by
    cases h : s.data with
    | nil => exact absurd h hs
    | cons c cs => exact ⟨c, cs, rfl⟩
  unfold parsePath
  rw [hdata, hcs, List.cons_append]
  simp only [parsePathData]
  by_cases hc : c = '/'
  · subst hc
    rw [if_pos rfl, parseBody_dir "/" cs "index.html".data (by decide) (by decide)]
    refine str_ext ?_
    rw [data_append, hcs]
    rfl
  · rw [if_neg hc, ← List.cons_append,
      parseBody_dir "" (c :: cs) "index.html".data (by decide) (by decide)]
    refine str_ext ?_
    rw [data_append, hcs]
    rfl

lemma splitOnChar_of_not_mem {c : Char} {l : List Char} (h : c ∉ l) :
    splitOnChar c l = [l] := by
  induction l with
  | nil => rfl
  | cons x xs ih =>
    have hx : ¬ x = c := fun he => h (he ▸ List.mem_cons_self x xs)
    have hxs : c ∉ xs := fun hm => h (List.mem_cons_of_mem x hm)
    simp [splitOnChar, hx, ih hxs]

lemma parseLine_none_of_no_colon {line : String} (h : ':' ∉ line.data) :
    parseLine line = none := by
  unfold parseLine jsSplit
  rw [splitOnChar_of_not_mem h]
  rfl

lemma foldlM_parse_none (lines : List String) (acc : Metadata) (l : String)
    (hl : l ∈ lines) (h : parseLine l = none) :
    lines.foldlM parseMetadataStep acc = none := by
  induction lines generalizing acc with
  | nil => cases hl
  | cons x xs ih =>
    rw [List.foldlM_cons]
    rcases List.mem_cons.mp hl with rfl | hmem
    · rw [parseMetadataStep, h]
      rfl
    · cases hx : parseMetadataStep acc x with
      | none => rfl
      | some a => simpa [hx] using ih a hmem

lemma postsDataScan_go (es : List String) (a b : List String) :
    es.foldl postsDataStep (a, b)
      = (a ++ es.filter (fun f => jsIncludes f ".org"),
         b ++ (es.filter (fun f => !jsIncludes f ".org")).map
                (fun f => "Skipping " ++ f)) := by
  induction es generalizing a b with
  | nil => simp
  | cons x xs ih =>
    cases hx : jsIncludes x ".org" with
    | true => simp [postsDataStep, hx, ih, List.filter_cons]
    | false => simp [postsDataStep, hx, ih, List.filter_cons]

lemma jsSlice2_zero_neg_one (s : String) :
    jsSlice2 s 0 (-1) = (⟨s.data.dropLast⟩ : String) := by
  unfold jsSlice2 jsSliceClamp
  have h0 : ¬ ((0 : Int) < 0) := by omega
  have h1 : ((-1 : Int) < 0) := by omega
  rw [if_neg h0, if_pos h1]
  have h2 : (max ((s.data.length : Int) + (-1)) 0).toNat = s.data.length - 1 := by
    omega
  have h3 : min (0 : Int).toNat s.data.length = 0 := by
    simp
  rw [h2, h3, List.drop_zero, ← List.dropLast_eq_take]

lemma drop_min (s : List Char) (n : Nat) : s.drop (min n s.length) = s.drop n := by
  rcases le_total n s.length with h | h
  · rw [min_eq_left h]
  · rw [min_eq_right h, List.drop_length, List.drop_eq_nil_of_le h]

lemma jsSliceFrom_nat (s : String) (n : Nat) :
    jsSliceFrom s (n : Int) = (⟨s.data.drop n⟩ : String) := by
  unfold jsSliceFrom jsSliceClamp
  rw [if_neg (by omega)]
  rw [Int.toNat_ofNat, drop_min]

/-- Sample `PostData` value used by the C7 theorems. -/
def samplePost : PostData :=
  ⟨"<p>hi</p>", "a.org", "posts/a.org", "posts/a", []⟩

/-- Sample `PostData` value with an empty `title` metadata entry, used by the
C10 witness. -/
def emptyTitlePost : PostData :=
  ⟨"", "a.org", "posts/a.org", "posts/a", [("title", "")]⟩

/-- Sample JS-minifier oracle that reports an error, used by the C8 witness. -/
def failingMinifier : String → MinifyJsResult :=
  fun _ => ⟨none, some "SyntaxError", none⟩

/-- Sample JS-minifier oracle that reports only a warning, used by the C8
witness. -/
def warningMinifier : String → MinifyJsResult :=
  fun _ => ⟨some "x=1", none, some "unused variable"⟩

/-! ## Claim theorems -/

/-- C1: the claim says the metadata parser splits each header line on the
FIRST colon only, preserving colons inside the value.  The code
(`line.split(':')` destructured as `[key, value]`) instead splits on every
colon and keeps only the chunk between the first and second colon: on the
header line `link: https://frankpf.com` the stored value is `https`, not
`https://frankpf.com`.  This theorem evaluates the embedded parser at that
failing input, exhibiting the corruption the spec flags as a latent bug. -/
theorem parseMetadata_splits_every_colon :
    parseMetadata "link: https://frankpf.com" = some [("link", "https")] := by
  decide

/-- C2 counterexample: the claim says a header line with no colon does not
raise an error and yields a key with an absent value.  In the code the
destructured `value` is `undefined` and `value.trim()` throws a TypeError
(modelled as `none`), so parsing the one-line header `draft` fails instead
of succeeding. -/
theorem parseMetadata_missing_colon_throws :
    parseMetadata "draft" = none := by
  decide

/-- C2 amended: a header block containing a line with no colon makes
`parseMetadata` throw a TypeError (`value.trim()` on `undefined`), modelled
as `none`; metadata parsing of such a block fails rather than producing a
key with an absent value. -/
theorem parseMetadata_fails_on_colonless_line (str line : String)
    (h1 : line ∈ jsSplit '\n' str) (h2 : ':' ∉ line.data) :
    parseMetadata str = none := by
  unfold parseMetadata
  exact foldlM_parse_none _ _ line h1 (parseLine_none_of_no_colon h2)

/-- C2 witness: the amended theorem applied to the header block
`title: Hi\nnocolon`, whose second line has no colon. -/
theorem parseMetadata_fails_on_colonless_line_witness :
    ("nocolon" ∈ jsSplit '\n' "title: Hi\nnocolon") ∧
    (':' ∉ ("nocolon" : String).data) ∧
    parseMetadata "title: Hi\nnocolon" = none :=
  ⟨by decide, by decide,
   parseMetadata_fails_on_colonless_line "title: Hi\nnocolon" "nocolon"
     (by decide) (by decide)⟩

/-- C3: for every source path whose parsed base name is not exactly
`index.html`, `formatFilename` returns
`path.join(dir(P), name(P), 'index.html')` — the directory of `P`, then the
base name of `P` without its extension, then `index.html`. -/
theorem formatFilename_pretty_url (p : String)
    (h : (parsePath p).base ≠ "index.html") :
    formatFilename p
      = joinPath [(parsePath p).dir, (parsePath p).name, "index.html"] := by
  simp only [formatFilename]
  rw [if_neg h]

/-- C3 witness: the theorem applied at `posts/hello-world.org`, whose
computed output path evaluates to `posts/hello-world/index.html`. -/
theorem formatFilename_pretty_url_witness :
    (parsePath "posts/hello-world.org").base ≠ "index.html" ∧
    formatFilename "posts/hello-world.org" = "posts/hello-world/index.html" :=
  ⟨by decide,
   (formatFilename_pretty_url "posts/hello-world.org" (by decide)).trans (by decide)⟩

/-- C4 counterexample: the claim says the computed href ends in a path
separator (`<dir(P)>/<name(P)>/`).  The code computes
`path.parse(outputPath).dir`, which carries no trailing separator: for
`posts/foo.org` the href is `posts/foo`, not `posts/foo/`. -/
theorem href_trailing_separator_cex :
    hrefOf "posts/foo.org" = "posts/foo" ∧
    ("posts/foo" : String) ≠ "posts/foo/" := by
  decide

/-- C4 amended: for a source path whose base name is not `index.html` (and
whose components join by plain concatenation, with no path normalization
applying), the href equals `<dir(P)>/<name(P)>` WITHOUT a trailing
separator — equivalently, the computed output path with the trailing
`/index.html` (separator included) stripped. -/
theorem href_strips_index_html (p : String)
    (h1 : (parsePath p).base ≠ "index.html")
    (h2 : joinPath [(parsePath p).dir, (parsePath p).name, "index.html"]
        = (parsePath p).dir ++ "/" ++ (parsePath p).name ++ "/index.html") :
    hrefOf p = (parsePath p).dir ++ "/" ++ (parsePath p).name ∧
    hrefOf p ++ "/index.html" = formatFilename p := by
  have hf : formatFilename p
      = (parsePath p).dir ++ "/" ++ (parsePath p).name ++ "/index.html" := by
    simp only [formatFilename]
    rw [if_neg h1, h2]
  have hs : ((parsePath p).dir ++ "/" ++ (parsePath p).name).data ≠ [] := by
    rw [data_append, data_append]
    simp
  have key : hrefOf p = (parsePath p).dir ++ "/" ++ (parsePath p).name := by
    unfold hrefOf
    rw [hf]
    exact parsePath_dir_slash_index _ hs
  exact ⟨key, by rw [key, hf]⟩

/-- C4 witness: the amended theorem applied at `posts/hello.org`, whose href
evaluates to `posts/hello` while the output path is
`posts/hello/index.html`. -/
theorem href_strips_index_html_witness :
    (parsePath "posts/hello.org").base ≠ "index.html" ∧
    hrefOf "posts/hello.org" = "posts/hello" ∧
    hrefOf "posts/hello.org" ++ "/index.html" = formatFilename "posts/hello.org" := by
  have h := href_strips_index_html "posts/hello.org" (by decide) (by decide)
  exact ⟨by decide, h.1.trans (by decide), h.2⟩

/-- C5 counterexample: the claim says that for a source whose base name is
`index.html` the href is `<dir(P)>/` with a trailing separator.  For
`posts/index.html` the code computes href `posts`, not `posts/` (the output
path is returned unchanged, which is the correct half of the claim). -/
theorem href_index_input_cex :
    formatFilename "posts/index.html" = "posts/index.html" ∧
    hrefOf "posts/index.html" = "posts" ∧
    ("posts" : String) ≠ "posts/" := by
  decide

/-- C5 amended: for every source path whose parsed base name is exactly
`index.html`, the path resolver returns the path unchanged as the output
path, and the href is `dir(P)` (the parsed directory component) WITHOUT a
trailing separator. -/
theorem formatFilename_index_unchanged (p : String)
    (h : (parsePath p).base = "index.html") :
    formatFilename p = p ∧ hrefOf p = (parsePath p).dir := by
  have hf : formatFilename p = p := by
    simp only [formatFilename]
    rw [if_pos h]
  exact ⟨hf, by unfold hrefOf; rw [hf]⟩

/-- C5 witness: the amended theorem applied at `docs/index.html`: the output
path is unchanged and the href evaluates to `docs`. -/
theorem formatFilename_index_unchanged_witness :
    (parsePath "docs/index.html").base = "index.html" ∧
    formatFilename "docs/index.html" = "docs/index.html" ∧
    hrefOf "docs/index.html" = "docs" := by
  have h := formatFilename_index_unchanged "docs/index.html" (by decide)
  exact ⟨by decide, h.1, h.2.trans (by decide)⟩

/-- C6 counterexample: the claim says an entry is included iff its filename
has `.org` as its extension.  The code tests `filename.includes('.org')`
(substring containment): the entry `notes.org.bak`, whose extension is
`.bak`, is nevertheless collected by the loader. -/
theorem postsDataScan_substring_cex :
    (postsDataScan ["notes.org.bak"]).1 = ["notes.org.bak"] ∧
    (parsePath "notes.org.bak").ext = ".bak" ∧
    (parsePath "notes.org.bak").ext ≠ ".org" := by
  decide

/-- C6 amended: the loader includes a directory entry iff its filename
CONTAINS `.org` as a substring (JS `String.prototype.includes`), and every
excluded entry produces exactly the log line `Skipping <filename>`. -/
theorem postsDataScan_includes_substring (entries : List String) :
    (postsDataScan entries).1 = entries.filter (fun f => jsIncludes f ".org") ∧
    (postsDataScan entries).2
      = (entries.filter (fun f => !jsIncludes f ".org")).map
          (fun f => "Skipping " ++ f) := by
  unfold postsDataScan
  rw [postsDataScan_go]
  simp

/-- C6 witness: the amended theorem applied to a two-entry listing: `a.org`
is collected and `b.txt` is skipped with its log line. -/
theorem postsDataScan_includes_substring_witness :
    (postsDataScan ["a.org", "b.txt"]).1 = ["a.org"] ∧
    (postsDataScan ["a.org", "b.txt"]).2 = ["Skipping b.txt"] := by
  have h := postsDataScan_includes_substring ["a.org", "b.txt"]
  exact ⟨h.1.trans (by decide), h.2.trans (by decide)⟩

/-- C7 counterexample: the claim says the index page is written before each
per-document page.  The top level runs `genPosts(DATA)` and only then
`genIndex(DATA)`: with one post, the ordered write list puts the post page
(`build/posts/a/index.html`) at position 0 and the index page
(`build/index.html`) at position 1 — the index write is last, not first. -/
theorem buildWrites_index_last_cex :
    buildWrites [samplePost]
      = ["build/posts/a/index.html", "build/index.html"] ∧
    writtenPath "index.html" = "build/index.html" ∧
    ("build/posts/a/index.html" : String) ≠ "build/index.html" := by
  decide

/-- C7 amended: in every build run each per-document page write occupies a
position strictly before the index-page write: post `i` is written at
position `i` and the index page at position `posts.length`, the final
write. -/
theorem buildWrites_posts_before_index (posts : List PostData) (i : Nat)
    (h : i < posts.length) :
    (buildWrites posts)[i]? = some (writtenPath posts[i].fullpath) ∧
    (buildWrites posts)[posts.length]? = some (writtenPath "index.html") := by
  constructor
  · rw [buildWrites, List.getElem?_append]
    simp [h]
  · rw [buildWrites, List.getElem?_append]
    simp

/-- C7 witness: the amended theorem applied to the one-post build: the post
page is written at position 0 and the index page at position 1. -/
theorem buildWrites_posts_before_index_witness :
    (buildWrites [samplePost])[0]? = some (writtenPath samplePost.fullpath) ∧
    (buildWrites [samplePost])[([samplePost] : List PostData).length]?
      = some (writtenPath "index.html") := by
  have h := buildWrites_posts_before_index [samplePost] 0 (by decide)
  exact ⟨h.1, h.2⟩

/-- C8: during HTML optimization (a) when the embedded JS minifier reports
an error for a script block, the callback logs the offending script text and
throws the error (`Except.error`, which propagates uncaught and aborts the
build); (b) when it reports only warnings, the warnings are logged and the
minified code is returned (the build continues); and (c) `optimizeHtml`
applies syntax highlighting to the HTML before handing it to the
minifier. -/
theorem optimizeHtml_error_handling :
    (∀ (mj : String → MinifyJsResult) (text e : String),
        (mj text).error = some e →
        (minifyJsCallback mj text).2 = Except.error e ∧
        text ∈ (minifyJsCallback mj text).1) ∧
    (∀ (mj : String → MinifyJsResult) (text w : String),
        (mj text).error = none → (mj text).warnings = some w →
        (minifyJsCallback mj text).1 = [w] ∧
        (minifyJsCallback mj text).2 = Except.ok ((mj text).code.getD "")) ∧
    (∀ (minifyHtml highlightHtml : String → String) (html : String),
        optimizeHtml minifyHtml highlightHtml html
          = minifyHtml (highlightHtml html)) := by
  refine ⟨?_, ?_, ?_⟩
  · intro mj text e he
    simp only [minifyJsCallback, he]
    cases hw : (mj text).warnings <;> simp [hw]
  · intro mj text w he hw
    simp [minifyJsCallback, he, hw]
  · intro m hl html
    rfl

/-- C8 witness: the theorem applied to two concrete minifier oracles: one
reporting an error (the script text is logged and the error thrown) and one
reporting only a warning (logged, with the minified code returned). -/
theorem optimizeHtml_error_handling_witness :
    (minifyJsCallback failingMinifier "var x=").2 = Except.error "SyntaxError" ∧
    "var x=" ∈ (minifyJsCallback failingMinifier "var x=").1 ∧
    (minifyJsCallback warningMinifier "let y=1").1 = ["unused variable"] ∧
    (minifyJsCallback warningMinifier "let y=1").2 = Except.ok "x=1" := by
  obtain ⟨h1, h2, _⟩ := optimizeHtml_error_handling
  exact ⟨(h1 failingMinifier "var x=" "SyntaxError" rfl).1,
         (h1 failingMinifier "var x=" "SyntaxError" rfl).2,
         (h2 warningMinifier "let y=1" "unused variable" rfl rfl).1,
         (h2 warningMinifier "let y=1" "unused variable" rfl rfl).2⟩

/-- C9 counterexample: the claim says compilation of a file without the
separator `\n---\n` reports no error.  For the raw content `hello` the
truncated header `hell` has no colon, so `parseMetadata` throws a TypeError
and compilation fails (`none`). -/
theorem compileOrgFile_no_separator_cex :
    compileOrgFile "hello" = none := by
  decide

/-- C9 amended: for raw content without the separator `\n---\n`
(`indexOf` returns `-1`), the header handed to `parseMetadata` is the whole
content minus its final character (`slice(0, -1)`) and the body handed to
the external converter is the content minus its first 4 characters
(`slice(-1 + 5)`); compilation succeeds exactly when parsing that truncated
header does not throw (it errors otherwise, rather than never erroring). -/
theorem compileOrgFile_no_separator (raw : String)
    (h : jsIndexOf raw "\n---\n" = -1) :
    compileOrgFile raw
      = (parseMetadata ⟨raw.data.dropLast⟩).map
          (fun md => (md, (⟨raw.data.drop 4⟩ : String))) ∧
    jsSlice2 raw 0 (-1) = (⟨raw.data.dropLast⟩ : String) ∧
    jsSliceFrom raw 4 = (⟨raw.data.drop 4⟩ : String) := by
  have h1 := jsSlice2_zero_neg_one raw
  have h4 : jsSliceFrom raw 4 = (⟨raw.data.drop 4⟩ : String) := jsSliceFrom_nat raw 4
  refine ⟨?_, h1, h4⟩
  simp only [compileOrgFile, h]
  have h5 : (-1 : Int) + 5 = 4 := by omega
  rw [h5, h1, h4]
  cases hm : parseMetadata (⟨raw.data.dropLast⟩ : String) with
  | none => rfl
  | some md => rfl

/-- C9 witness: the amended theorem applied to the raw content `t:1 hello`
(no separator): the header is `t:1 hell`, the metadata parses to
`t = 1 hell`, and the body passed to the converter is `hello`. -/
theorem compileOrgFile_no_separator_witness :
    jsIndexOf "t:1 hello" "\n---\n" = -1 ∧
    compileOrgFile "t:1 hello" = some ([("t", "1 hell")], "hello") := by
  have h := compileOrgFile_no_separator "t:1 hello" (by decide)
  exact ⟨by decide, h.1.trans (by decide)⟩

/-- C10: when a document's metadata maps `title` to the empty string, the
computed page title is the bare site name `Frank Filho` — exactly what an
absent title produces — because the empty string is falsy in JS; the
suffixed form `<title> - Frank Filho` is used only for a non-empty title. -/
theorem pageTitle_empty_title (p : PostData) (t : String)
    (h : mdLookup p.metadata "title" = some t) :
    (t = "" → pageTitle (some p) = "Frank Filho" ∧
              pageTitle (some p) = pageTitle none) ∧
    (t ≠ "" → pageTitle (some p) = t ++ " - Frank Filho") := by
  constructor
  · intro ht
    subst ht
    simp [pageTitle, h]
  · intro ht
    simp only [pageTitle, h]
    rw [if_neg ht]

/-- C10 witness: the theorem applied to a post whose `title` metadata entry
is the empty string: the page title evaluates to the bare site name. -/
theorem pageTitle_empty_title_witness :
    mdLookup emptyTitlePost.metadata "title" = some "" ∧
    pageTitle (some emptyTitlePost) = "Frank Filho" :=
  ⟨by decide,
   ((pageTitle_empty_title emptyTitlePost "" (by decide)).1 rfl).1⟩

end StaticSite
